import Mathlib

/-!
Verification of the transformer autoencoder in `model.py` of nanoGPTMS2.

The model code is embedded shallowly over the rationals:

* tensors are nested lists of `ℚ` (`Vec`, `Mat`, `Mat3`);
* the transcendental scalar primitives used by the network (`exp`, `log`,
  `sqrt`, `gelu`) are not algebraic over `ℚ`, so they are carried as an
  explicit parameter record `Prims`; every theorem holds for an arbitrary
  interpretation of these primitives (adding hypotheses such as
  monotonicity of `log` only where a claim genuinely needs them), and the
  concrete witnesses instantiate them with simple computable functions;
* the model is embedded in inference mode, the mode every spec claim is
  about: `nn.Dropout` is the identity (`dropout` disabled / `model.eval()`);
* Python-level failures (assertion errors, shape mismatches in matmul and
  view, index errors in embedding lookups, `torch.bincount` on negative
  input, the `TypeError`/`UnboundLocalError` raised by the diagnostic
  logging branches when `targets is None`) are modelled with
  `Except String`;
* the random draws a call consumes (`torch.randint` for the intensity
  vector and the two `random.random()` draws of the logging branches) are
  passed in explicitly as a `Draws` record; `torch.multinomial` is modelled
  by inverse-CDF sampling from one uniform draw in `[0,1)`.
-/

unseal Rat.add Rat.sub Rat.mul Rat.inv Nat.gcd

/-- Decidable equality for `Except`, so concrete runs can be checked by `decide`. -/
instance exceptDecEq {ε α : Type} [DecidableEq ε] [DecidableEq α] : DecidableEq (Except ε α)
  | .error e, .error f =>
    match decEq e f with
    | isTrue h => isTrue (by rw [h])
    | isFalse h => isFalse (by intro hh; cases hh; exact h rfl)
  | .error _, .ok _ => isFalse (by intro h; cases h)
  | .ok _, .error _ => isFalse (by intro h; cases h)
  | .ok a, .ok b =>
    match decEq a b with
    | isTrue h => isTrue (by rw [h])
    | isFalse h => isFalse (by intro hh; cases hh; exact h rfl)

abbrev Vec : Type := List ℚ

abbrev Mat : Type := List Vec

abbrev Mat3 : Type := List Mat

/-- The scalar primitives of the network that are transcendental over `ℚ`. -/
structure Prims where
  exp : ℚ → ℚ
  log : ℚ → ℚ
  sqrt : ℚ → ℚ
  gelu : ℚ → ℚ

/-- The random draws one `forward` call can consume: `ins` models the
`torch.randint(0, NUM_INTENSITIES, (t,))` stream (reduced mod
`NUM_INTENSITIES`, as `randint` yields values in range by construction),
`r1` and `r2` the two `random.random()` draws of the logging branches. -/
structure Draws where
  ins : ℕ → ℕ
  r1 : ℚ
  r2 : ℚ

def dotQ (a b : Vec) : ℚ := (List.zipWith (· * ·) a b).sum

def addVec (a b : Vec) : Vec := List.zipWith (· + ·) a b

/-- `nn.Linear`: `y = W x + b`, row `i` of `W` dotted with the input. -/
def linear (W : Mat) (b : Option Vec) (x : Vec) : Vec :=
  match b with
  | none => W.map (fun r => dotQ r x)
  | some bb => List.zipWith (· + ·) (W.map (fun r => dotQ r x)) bb

/-- `F.layer_norm(x, w.shape, w, b, 1e-5)`: normalise over the feature
dimension (biased variance), then scale by `w` and optionally shift by `b`
(the source `LayerNorm` has `bias = None` when `config.bias` is false). -/
def layerNormF (P : Prims) (w : Vec) (b : Option Vec) (x : Vec) : Vec :=
  let n : ℚ := (x.length : ℚ)
  let mu := x.sum / n
  let varE := (x.map (fun xi => (xi - mu) * (xi - mu))).sum / n
  let normed := x.map (fun xi => (xi - mu) / P.sqrt (varE + 1 / 100000))
  let scaled := List.zipWith (· * ·) normed w
  match b with
  | none => scaled
  | some bb => List.zipWith (· + ·) scaled bb

/-- Softmax of a row whose masked entries hold `-inf` (`none`): the masked
entries contribute `exp(-inf) = 0` to the denominator and get probability 0. -/
def softmaxMasked (P : Prims) (row : List (Option ℚ)) : List ℚ :=
  let dsum := (row.map (fun o => match o with | none => 0 | some s => P.exp s)).sum
  row.map (fun o => match o with | none => 0 | some s => P.exp s / dsum)

/-- Plain softmax over the last dimension (`F.softmax(x, dim=-1)`). -/
def softmaxPlain (P : Prims) (v : Vec) : Vec :=
  let dsum := (v.map P.exp).sum
  v.map (fun s => P.exp s / dsum)

/-- `Σ_j ps_j • vs_j`, the `att @ v` contraction for one query position. -/
def weightedSum (n : ℕ) (ps : List ℚ) (vs : List Vec) : Vec :=
  (List.zipWith (fun p v => v.map (fun a => p * a)) ps vs).foldl addVec (List.replicate n 0)

/-- Slice of the fused `c_attn` output holding the query of head `h`. -/
def qPart (C h hs : ℕ) (v : Vec) : Vec := ((v.take C).drop (h * hs)).take hs

/-- Slice of the fused `c_attn` output holding the key of head `h`. -/
def kPart (C h hs : ℕ) (v : Vec) : Vec := (((v.drop C).take C).drop (h * hs)).take hs

/-- Slice of the fused `c_attn` output holding the value of head `h`. -/
def vPart (C h hs : ℕ) (v : Vec) : Vec := (((v.drop (2 * C)).take C).drop (h * hs)).take hs

/-- Row `i` of the causally masked attention scores of head `h`:
`(q_i · k_j) / sqrt(hs)` for `j ≤ i`, `-inf` (`none`) for `j > i`
(the `masked_fill` with the lower-triangular buffer). -/
def attnScoresRow (P : Prims) (C h hs : ℕ) (qkv : Mat) (i : ℕ) : List (Option ℚ) :=
  (List.range qkv.length).map (fun j =>
    if j ≤ i then
      some (dotQ (qPart C h hs (qkv.getD i [])) (kPart C h hs (qkv.getD j [])) * (1 / P.sqrt (hs : ℚ)))
    else none)

/-- Output of head `h` at query position `i`: softmax the masked scores
(attention dropout is the identity in inference mode) and contract with the
values. -/
def headAt (P : Prims) (C h hs : ℕ) (qkv : Mat) (i : ℕ) : Vec :=
  weightedSum hs (softmaxMasked P (attnScoresRow P C h hs qkv i))
    ((List.range qkv.length).map (fun j => vPart C h hs (qkv.getD j [])))

/-- `CausalSelfAttention.forward` on one sequence of the batch: fused
qkv projection, per-head causal scaled dot-product attention, heads
re-assembled side by side, output projection (`resid_dropout` is the
identity in inference mode). -/
def csaSeq (P : Prims) (nh C : ℕ) (Wa : Mat) (ba : Option Vec) (Wp : Mat) (bp : Option Vec)
    (x : Mat) : Mat :=
  let hs := C / nh
  let qkv := x.map (linear Wa ba)
  (List.range x.length).map (fun i =>
    linear Wp bp (List.flatten ((List.range nh).map (fun h => headAt P C h hs qkv i))))

/-- `CausalSelfAttention.forward` on a `(B, T, C)` batch: the batch rows are
processed independently. -/
def CausalSelfAttention.forward (P : Prims) (nh C : ℕ) (Wa : Mat) (ba : Option Vec)
    (Wp : Mat) (bp : Option Vec) (xb : Mat3) : Mat3 :=
  xb.map (csaSeq P nh C Wa ba Wp bp)

/-- The per-block weights: `ln_1`, `attn.c_attn`, `attn.c_proj`, `ln_2`,
`mlp.c_fc`, `mlp.c_proj`; biases are `none` when `config.bias` is false. -/
structure BlockWeights where
  ln1w : Vec
  ln1b : Option Vec
  attnW : Mat
  attnB : Option Vec
  projW : Mat
  projB : Option Vec
  ln2w : Vec
  ln2b : Option Vec
  fcW : Mat
  fcB : Option Vec
  proj2W : Mat
  proj2B : Option Vec

/-- `MLP.forward`: expand with `c_fc`, apply GELU, project back with
`c_proj` (dropout is the identity in inference mode). -/
def MLP.forward (P : Prims) (bw : BlockWeights) (v : Vec) : Vec :=
  linear bw.proj2W bw.proj2B ((linear bw.fcW bw.fcB v).map P.gelu)

/-- `Block.forward` on one sequence:
`x + attn(ln_1(x))`, then `+ mlp(ln_2(x))` position-wise. -/
def Block.forward (P : Prims) (nh C : ℕ) (bw : BlockWeights) (x : Mat) : Mat :=
  let x1 := List.zipWith addVec x
    (csaSeq P nh C bw.attnW bw.attnB bw.projW bw.projB (x.map (layerNormF P bw.ln1w bw.ln1b)))
  List.zipWith addVec x1 ((x1.map (layerNormF P bw.ln2w bw.ln2b)).map (MLP.forward P bw))

/-- The construction contract of `GPTConfig` (the fields the live forward
path reads; `dropout` is retained for completeness, the embedding being in
inference mode where it is inert). -/
structure GPTConfig where
  block_size : ℕ
  vocab_size : ℕ
  n_layer : ℕ
  n_head : ℕ
  n_embd : ℕ
  dropout : ℚ
  bias : Bool
  n_bottleneck : ℕ

/-- `self.NUM_INTENSITIES = 10`. -/
def NUM_INTENSITIES : ℕ := 10

/-- The weight tensors of the `GPT` module tree, gathered as values.
The `transformer.*` branch is kept although the live forward path
(the encoder/bottleneck/decoder rewrite) never reads it. -/
structure GPTWeights where
  transformerWte : Mat
  transformerWpe : Mat
  transformerBlocks : List BlockWeights
  transformerLnFw : Vec
  transformerLnFb : Option Vec
  encWte : Mat
  encWpe : Mat
  encWie : Mat
  encBlocks : List BlockWeights
  encLnFw : Vec
  encLnFb : Option Vec
  encBottleneckW : Mat
  encBottleneckB : Option Vec
  decUnbottleneckW : Mat
  decUnbottleneckB : Option Vec
  decBlocks : List BlockWeights
  decLnFw : Vec
  decLnFb : Option Vec
  lmHeadW : Mat

/-- Elementwise effectful map, failing at the first failing element. -/
def mapE (f : α → Except String β) : List α → Except String (List β)
  | [] => .ok []
  | a :: l =>
    match f a with
    | .error e => .error e
    | .ok b =>
      match mapE f l with
      | .error e => .error e
      | .ok bs => .ok (b :: bs)

/-- `nn.Embedding` row lookup; out-of-range ids raise, as in torch. -/
def lookupRow (M : Mat) (i : ℕ) : Except String Vec :=
  if i < M.length then .ok (M.getD i []) else .error "IndexError: index out of range in self"

/-- The `assert t <= self.config.block_size` guard at the top of
`GPT.forward`. -/
def blockSizeGuard (cfg : GPTConfig) (t : ℕ) : Except String Unit :=
  if cfg.block_size < t then
    .error "AssertionError: Cannot forward sequence, block size exceeded"
  else .ok ()

/-- The encoder trunk of the live forward path: token + position embeddings
(the intensity embedding is computed but never summed in the source),
dropout (identity in inference mode), the stack of blocks taken from
`self.decoder.h` (the crossed usage in the source), and `encoder.ln_f`. -/
def GPT.encodeZ (cfg : GPTConfig) (W : GPTWeights) (P : Prims) (tokEmb : Mat3) (posEmb : Mat) :
    Mat3 :=
  ((tokEmb.map (fun row => List.zipWith addVec row posEmb)).map
      (fun row => W.decBlocks.foldl (fun acc bw => Block.forward P cfg.n_head cfg.n_embd bw acc) row)).map
    (fun row => row.map (layerNormF P W.encLnFw W.encLnFb))

/-- `z.view(B, block_size, n_embd)` on one flattened row. -/
def chunkRows (rows cols : ℕ) (v : Vec) : Mat :=
  (List.range rows).map (fun i => (v.drop (i * cols)).take cols)

/-- The decoder trunk: the stack of blocks taken from `self.encoder.h` (the
crossed usage in the source), dropout (identity in inference mode),
`decoder.ln_f`, then the tied `lm_head` projection (`bias=False`). -/
def GPT.decodeLogits (cfg : GPTConfig) (W : GPTWeights) (P : Prims) (z3 : Mat3) : Mat3 :=
  ((z3.map (fun row => W.encBlocks.foldl (fun acc bw => Block.forward P cfg.n_head cfg.n_embd bw acc) row)).map
      (fun row => row.map (layerNormF P W.decLnFw W.decLnFb))).map
    (fun row => row.map (linear W.lmHeadW none))

/-- `F.cross_entropy(logits.view(-1, V), targets.view(-1), ignore_index=-1)`
with mean reduction over the non-ignored positions: per position
`log Σ_j exp l_j - l_target`. Targets outside `[0, V)` other than the
ignore index raise, as in torch. (When every position is ignored torch
yields NaN; the embedding returns the `0/0 = 0` of `ℚ` there, a case no
claim touches.) -/
def crossEntropyMean (P : Prims) (V : ℕ) (lg : Mat) (tg : List ℤ) : Except String ℚ :=
  if lg.length ≠ tg.length then
    .error "ValueError: Expected input batch_size to match target batch_size"
  else
    match mapE (fun pr : Vec × ℤ =>
        if pr.2 = -1 then .ok none
        else if 0 ≤ pr.2 ∧ pr.2.toNat < V then
          .ok (some (P.log ((pr.1.map P.exp).sum) - pr.1.getD pr.2.toNat 0))
        else .error "IndexError: Target out of bounds") (List.zip lg tg) with
    | .error e => .error e
    | .ok opts =>
      let vals := opts.reduceOption
      .ok (vals.sum / (vals.length : ℚ))

/-- `_custom_loss(logits2, targets)`: histogram of the flattened targets via
`torch.bincount(targets, minlength=V)` (which raises on negative input),
normalised; mean softmax probabilities over the block dimension;
cross-entropy between the two with the `1e-12` epsilon; mean over vocab then
over batch. -/
def customLoss (P : Prims) (V : ℕ) (logits2 : Mat3) (targets : List (List ℤ)) :
    Except String ℚ :=
  let t1 := targets.flatten
  if t1.any (fun x => x < 0) then
    .error "RuntimeError: bincount only supports non-negative input values"
  else
    let maxv := (t1.map Int.toNat).foldl max 0
    let L := if t1.isEmpty then V else max (maxv + 1) V
    let hist : Vec := (List.range L).map (fun c => ((t1.countP (fun x => x = (c : ℤ))) : ℚ))
    let hsum := hist.sum
    let histN := hist.map (fun x => x / hsum)
    let smMean : Mat := logits2.map (fun row =>
      (List.range V).map (fun c =>
        ((row.map (softmaxPlain P)).map (fun v => v.getD c 0)).sum / (row.length : ℚ)))
    if L ≠ V then .error "RuntimeError: tensor size mismatch in histogram loss"
    else
      let lossM := smMean.map (fun v =>
        List.zipWith (fun hc mc => -(hc * P.log (mc + 1 / 1000000000000))) histN v)
      .ok ((lossM.map (fun v => v.sum / (v.length : ℚ))).sum / (lossM.length : ℚ))

/-- The diagnostic logging branches at the end of `GPT.forward`. With
targets present they only print / append to a side file. With
`targets=None` the first branch evaluates `float(None)` (a `TypeError`)
when its draw fires, and the second reads the never-assigned `alt_loss2`
(an `UnboundLocalError`) when its draw fires. -/
def loggingGuards (targetsGiven : Bool) (d : Draws) : Except String Unit :=
  if targetsGiven then .ok ()
  else if d.r1 < 1 / 2000 then
    .error "TypeError: float() argument must be a string or a real number, not NoneType"
  else if d.r2 < 1 / 200 then
    .error "UnboundLocalError: local variable alt_loss2 referenced before assignment"
  else .ok ()

/-- The two possible results of `GPT.forward`: the bottleneck embedding
(`embedding=True`) or the `(logits, loss)` pair. -/
inductive FwdResult where
  | emb : Mat → FwdResult
  | out : Mat3 → Option ℚ → FwdResult
deriving DecidableEq

/-- `b, t = idx.size()`: the sequence length of a batch (its rows are
uniform in length for a torch tensor). -/
def seqLen (idx : List (List ℕ)) : ℕ := (idx.headD []).length

/-- The live path of `GPT.forward` (the encoder/bottleneck/decoder rewrite;
the code of the original transformer path is either commented out or
unreachable behind the early `return`). -/
def GPT.forward (cfg : GPTConfig) (W : GPTWeights) (P : Prims) (idx : List (List ℕ))
    (targets : Option (List (List ℤ))) (embedding : Bool) (d : Draws) :
    Except String FwdResult :=
  let t := seqLen idx
  match blockSizeGuard cfg t with
  | .error e => .error e
  | .ok _ =>
    match mapE (fun row => mapE (lookupRow W.encWte) row) idx with
    | .error e => .error e
    | .ok tokEmb =>
      match mapE (lookupRow W.encWpe) (List.range t) with
      | .error e => .error e
      | .ok posEmb =>
        match mapE (fun i => lookupRow W.encWie (d.ins i % NUM_INTENSITIES)) (List.range t) with
        | .error e => .error e
        | .ok _insEmb =>
          let z2 := GPT.encodeZ cfg W P tokEmb posEmb
          match mapE (fun (row : Mat) =>
              let v := row.flatten
              if v.length = cfg.block_size * cfg.n_embd then
                .ok (linear W.encBottleneckW W.encBottleneckB v)
              else .error "RuntimeError: mat1 and mat2 shapes cannot be multiplied") z2 with
          | .error e => .error e
          | .ok zbottleneck =>
            if embedding then .ok (.emb zbottleneck)
            else
              match mapE (fun (v : Vec) =>
                  if v.length = cfg.n_bottleneck then
                    .ok (linear W.decUnbottleneckW W.decUnbottleneckB v)
                  else .error "RuntimeError: mat1 and mat2 shapes cannot be multiplied") zbottleneck with
              | .error e => .error e
              | .ok zflat2 =>
                match mapE (fun (v : Vec) =>
                    if v.length = cfg.block_size * cfg.n_embd then
                      .ok (chunkRows cfg.block_size cfg.n_embd v)
                    else .error "RuntimeError: shape invalid for input of size") zflat2 with
                | .error e => .error e
                | .ok z3 =>
                  let logits2 := GPT.decodeLogits cfg W P z3
                  match targets with
                  | some tg =>
                    match crossEntropyMean P cfg.vocab_size logits2.flatten tg.flatten with
                    | .error e => .error e
                    | .ok loss2 =>
                      match customLoss P cfg.vocab_size logits2 tg with
                      | .error e => .error e
                      | .ok _altLoss2 => .ok (.out logits2 (some loss2))
                  | none =>
                    match loggingGuards false d with
                    | .error e => .error e
                    | .ok _ => .ok (.out logits2 none)

/-- `torch.topk` values are sorted in descending order; the `k`-th largest
value of a list is entry `k-1` of its descending sort. -/
def sortDesc (l : Vec) : Vec := List.insertionSort (· ≥ ·) l

/-- Inverse-CDF walk for `torch.multinomial`: scan the weights, picking the
first index whose cumulative weight exceeds the scaled draw. -/
def multinomialGo : List ℚ → ℚ → ℕ → Except String ℕ
  | [], _, _ => .error "RuntimeError: multinomial draw out of range"
  | p :: ps, x, i => if x < p then .ok i else multinomialGo ps (x - p) (i + 1)

/-- `torch.multinomial(probs, num_samples=1)` driven by one uniform draw
`u ∈ [0,1)`; an everywhere-nonpositive weight vector is invalid, as in torch. -/
def multinomialPick (ps : List ℚ) (u : ℚ) : Except String ℕ :=
  if ps.sum ≤ 0 then .error "RuntimeError: invalid multinomial distribution"
  else multinomialGo ps (u * ps.sum) 0

/-- One sampling step of `GPT.generate`: scale the last-position logits by
`1/temperature`; under a top-k restriction, set every logit strictly below
the `min(k, V)`-th largest to `-inf` (`torch.topk` then `masked` assignment
with `v[:, [-1]]`); softmax; sample. `topk` with `k = 0` makes the
`v[:, [-1]]` indexing raise, as in torch. -/
def sampleStep (P : Prims) (temp : ℚ) (topK : Option ℕ) (l : Vec) (u : ℚ) : Except String ℕ :=
  let scaled := l.map (fun s => s / temp)
  match topK with
  | none => multinomialPick (softmaxMasked P (scaled.map some)) u
  | some k =>
    let kk := min k scaled.length
    if kk = 0 then .error "IndexError: index -1 is out of bounds for dimension 1 with size 0"
    else
      let kv := (sortDesc scaled).getD (kk - 1) 0
      multinomialPick (softmaxMasked P (scaled.map (fun s => if s < kv then none else some s))) u

/-- `END_OF_SENTENCE_IDX = 2`. -/
def END_OF_SENTENCE_IDX : ℕ := 2

/-- The loop body of `GPT.generate`, structurally recursive on the number of
remaining iterations: crop the context to the last `block_size` tokens, run
`forward` (without targets), sample from the last position, append, and stop
early on the end-of-sequence id. `step` indexes the per-iteration random
draws. -/
def GPT.genLoop (cfg : GPTConfig) (W : GPTWeights) (P : Prims) (temp : ℚ) (topK : Option ℕ)
    (ds : ℕ → Draws) (us : ℕ → ℚ) : ℕ → ℕ → List ℕ → Except String (List ℕ)
  | _step, 0, cur => .ok cur
  | step, fuel + 1, cur =>
    let cond := if cur.length ≤ cfg.block_size then cur else cur.drop (cur.length - cfg.block_size)
    match GPT.forward cfg W P [cond] none false (ds step) with
    | .error e => .error e
    | .ok (.emb _) => .error "unreachable: embedding result in generate"
    | .ok (.out logits _) =>
      match sampleStep P temp topK ((logits.headD []).getLastD []) (us step) with
      | .error e => .error e
      | .ok tok =>
        if tok = END_OF_SENTENCE_IDX then .ok (cur ++ [tok])
        else GPT.genLoop cfg W P temp topK ds us (step + 1) fuel (cur ++ [tok])

/-- `GPT.generate(idx, max_new_tokens, temperature, top_k)` for a batch of
one sequence (the only batch size for which the source's
`if idx_next == END_OF_SENTENCE_IDX` truth test is well defined). -/
def GPT.generate (cfg : GPTConfig) (W : GPTWeights) (P : Prims) (idx : List ℕ) (maxNew : ℕ)
    (temp : ℚ) (topK : Option ℕ) (ds : ℕ → Draws) (us : ℕ → ℚ) : Except String (List ℕ) :=
  GPT.genLoop cfg W P temp topK ds us 0 maxNew idx

/-- Length of an optional bias vector (`n` when the bias is absent). -/
def optLen (n : ℕ) (b : Option Vec) : Prop := (b.map List.length).getD n = n

instance optLenDecidable (n : ℕ) (b : Option Vec) : Decidable (optLen n b) := by
  unfold optLen
  infer_instance

/-- Well-formed shapes for one block's weights under a configuration. -/
def BlockWF (cfg : GPTConfig) (bw : BlockWeights) : Prop :=
  bw.ln1w.length = cfg.n_embd ∧ optLen cfg.n_embd bw.ln1b ∧
  bw.attnW.length = 3 * cfg.n_embd ∧ (∀ v ∈ bw.attnW, v.length = cfg.n_embd) ∧
  optLen (3 * cfg.n_embd) bw.attnB ∧
  bw.projW.length = cfg.n_embd ∧ (∀ v ∈ bw.projW, v.length = cfg.n_embd) ∧
  optLen cfg.n_embd bw.projB ∧
  bw.ln2w.length = cfg.n_embd ∧ optLen cfg.n_embd bw.ln2b ∧
  bw.fcW.length = 4 * cfg.n_embd ∧ (∀ v ∈ bw.fcW, v.length = cfg.n_embd) ∧
  optLen (4 * cfg.n_embd) bw.fcB ∧
  bw.proj2W.length = cfg.n_embd ∧ (∀ v ∈ bw.proj2W, v.length = 4 * cfg.n_embd) ∧
  optLen cfg.n_embd bw.proj2B

instance blockWFDecidable (cfg : GPTConfig) (bw : BlockWeights) : Decidable (BlockWF cfg bw) := by
  unfold BlockWF
  infer_instance

/-- Well-formed shapes for the weights the live forward path reads. -/
def GPTWF (cfg : GPTConfig) (W : GPTWeights) : Prop :=
  W.encWte.length = cfg.vocab_size ∧ (∀ v ∈ W.encWte, v.length = cfg.n_embd) ∧
  W.encWpe.length = cfg.block_size ∧ (∀ v ∈ W.encWpe, v.length = cfg.n_embd) ∧
  W.encWie.length = NUM_INTENSITIES ∧ (∀ v ∈ W.encWie, v.length = cfg.n_embd) ∧
  (∀ bw ∈ W.encBlocks, BlockWF cfg bw) ∧ (∀ bw ∈ W.decBlocks, BlockWF cfg bw) ∧
  W.encLnFw.length = cfg.n_embd ∧ optLen cfg.n_embd W.encLnFb ∧
  W.encBottleneckW.length = cfg.n_bottleneck ∧
  (∀ v ∈ W.encBottleneckW, v.length = cfg.block_size * cfg.n_embd) ∧
  optLen cfg.n_bottleneck W.encBottleneckB ∧
  W.decUnbottleneckW.length = cfg.block_size * cfg.n_embd ∧
  (∀ v ∈ W.decUnbottleneckW, v.length = cfg.n_bottleneck) ∧
  optLen (cfg.block_size * cfg.n_embd) W.decUnbottleneckB ∧
  W.decLnFw.length = cfg.n_embd ∧ optLen cfg.n_embd W.decLnFb ∧
  W.lmHeadW.length = cfg.vocab_size ∧ (∀ v ∈ W.lmHeadW, v.length = cfg.n_embd)

instance gptWFDecidable (cfg : GPTConfig) (W : GPTWeights) : Decidable (GPTWF cfg W) := by
  unfold GPTWF
  infer_instance

/-- Identity-level model of the parameter tensors of `GPT.__init__`: each
field holds the id of the tensor object the module attribute refers to.
Block-stack parameters are carried as id ranges. -/
structure GPTRefs where
  transformerWte : ℕ
  transformerWpe : ℕ
  transformerBlockIds : List ℕ
  transformerLnF : List ℕ
  encWte : ℕ
  encWpe : ℕ
  encWie : ℕ
  encBlockIds : List ℕ
  encLnF : List ℕ
  encBottleneck : List ℕ
  decUnbottleneck : List ℕ
  decBlockIds : List ℕ
  decLnF : List ℕ
  lmHead : ℕ

/-- Consecutive tensor ids starting at `o`. -/
def idsFrom (o n : ℕ) : List ℕ := (List.range n).map (fun i => i + o)

/-- Tensor ids of one `LayerNorm` (`weight`, and `bias` when enabled). -/
def lnIds (bias : Bool) (o : ℕ) : List ℕ := if bias then [o, o + 1] else [o]

/-- Fresh, pairwise distinct tensor ids in the allocation order of
`GPT.__init__` (transformer dict, encoder dict, decoder dict, `lm_head`);
every module attribute refers to its own tensor before the tie. A block
owns `2` LayerNorm and `4` Linear parameter groups. -/
def GPT.allocRefs (cfg : GPTConfig) : GPTRefs :=
  let unit := if cfg.bias then 2 else 1
  let blkTotal := cfg.n_layer * (6 * unit)
  let o1 := 2 + blkTotal
  let o2 := o1 + unit
  let o3 := o2 + 3 + blkTotal
  let o4 := o3 + unit
  let o5 := o4 + 2
  let o6 := o5 + 2 + blkTotal
  let o7 := o6 + unit
  { transformerWte := 0
    transformerWpe := 1
    transformerBlockIds := idsFrom 2 blkTotal
    transformerLnF := lnIds cfg.bias o1
    encWte := o2
    encWpe := o2 + 1
    encWie := o2 + 2
    encBlockIds := idsFrom (o2 + 3) blkTotal
    encLnF := lnIds cfg.bias o3
    encBottleneck := [o4, o4 + 1]
    decUnbottleneck := [o5, o5 + 1]
    decBlockIds := idsFrom (o5 + 2) blkTotal
    decLnF := lnIds cfg.bias o6
    lmHead := o7 }

/-- The weight-tying assignments of `GPT.__init__`:
`self.transformer.wte.weight = self.lm_head.weight` and
`self.encoder.wte.weight = self.lm_head.weight` rebind both embedding
attributes to the very tensor owned by `lm_head`. -/
def GPT.tieRefs (r : GPTRefs) : GPTRefs :=
  { r with transformerWte := r.lmHead, encWte := r.lmHead }

/-- Parameter identities after construction: allocation followed by the two
tying assignments. The subsequent `self.apply(self._init_weights)` and the
scaled re-initialisation of the `c_proj` weights write into the tensors
through these references and rebind none of them. -/
def GPT.initRefs (cfg : GPTConfig) : GPTRefs := GPT.tieRefs (GPT.allocRefs cfg)

/-- A `forward` call as a state transition on the parameter record: the body
of `GPT.forward` assigns to no parameter, so a call returns its result and
the parameters untouched. -/
def GPT.forwardCall (cfg : GPTConfig) (W : GPTWeights) (P : Prims) (idx : List (List ℕ))
    (targets : Option (List (List ℤ))) (embedding : Bool) (d : Draws) :
    Except String FwdResult × GPTWeights :=
  (GPT.forward cfg W P idx targets embedding d, W)

/-- A computable interpretation of the transcendental primitives, used to
run the embedded model on concrete inputs. -/
def PG : Prims := { exp := fun _ => 1, log := fun _ => 0, sqrt := fun _ => 0, gelu := fun x => x }

/-- A tiny configuration on which `generate` can succeed:
`block_size = 1`, so the cropped context always matches the width the
bottleneck projection expects. -/
def cfgG : GPTConfig :=
  { block_size := 1, vocab_size := 3, n_layer := 0, n_head := 1, n_embd := 1,
    dropout := 0, bias := true, n_bottleneck := 1 }

/-- Concrete well-formed weights for `cfgG` (zeros, empty block stacks). -/
def WG : GPTWeights :=
  { transformerWte := List.replicate 3 [0]
    transformerWpe := [[0]]
    transformerBlocks := []
    transformerLnFw := [1]
    transformerLnFb := some [0]
    encWte := List.replicate 3 [0]
    encWpe := [[0]]
    encWie := List.replicate 10 [0]
    encBlocks := []
    encLnFw := [1]
    encLnFb := some [0]
    encBottleneckW := [[0]]
    encBottleneckB := some [0]
    decUnbottleneckW := [[0]]
    decUnbottleneckB := some [0]
    decBlocks := []
    decLnFw := [1]
    decLnFb := some [0]
    lmHeadW := List.replicate 3 [0] }

/-- The example-scenario configuration of the spec: vocabulary 5, block
size 4 (layers kept at zero so concrete runs stay small). -/
def cfg4 : GPTConfig :=
  { block_size := 4, vocab_size := 5, n_layer := 0, n_head := 1, n_embd := 2,
    dropout := 0, bias := true, n_bottleneck := 1 }

/-- Concrete well-formed weights for `cfg4` (zeros, empty block stacks). -/
def W4 : GPTWeights :=
  { transformerWte := List.replicate 5 [0, 0]
    transformerWpe := List.replicate 4 [0, 0]
    transformerBlocks := []
    transformerLnFw := [1, 1]
    transformerLnFb := some [0, 0]
    encWte := List.replicate 5 [0, 0]
    encWpe := List.replicate 4 [0, 0]
    encWie := List.replicate 10 [0, 0]
    encBlocks := []
    encLnFw := [1, 1]
    encLnFb := some [0, 0]
    encBottleneckW := [List.replicate 8 0]
    encBottleneckB := some [0]
    decUnbottleneckW := List.replicate 8 [0]
    decUnbottleneckB := some (List.replicate 8 0)
    decBlocks := []
    decLnFw := [1, 1]
    decLnFb := some [0, 0]
    lmHeadW := List.replicate 5 [0, 0] }

/-- Draws on which the diagnostic logging branches do not fire. -/
def dG : Draws := { ins := fun _ => 0, r1 := 1, r2 := 1 }

/-- Different draws on which the logging branches do not fire either. -/
def dG2 : Draws := { ins := fun _ => 7, r1 := 9 / 10, r2 := 8 / 10 }

/-- Draws on which the first logging branch (`float(None)`) fires. -/
def dBad1 : Draws := { ins := fun _ => 0, r1 := 0, r2 := 1 }

/-- Draws on which the second logging branch (`alt_loss2`) fires. -/
def dBad2 : Draws := { ins := fun _ => 0, r1 := 1, r2 := 0 }

/-- A constant per-step draw stream for `generate`. -/
def dsG : ℕ → Draws := fun _ => dG

/-- Uniform draws for the sampling steps (always 0: pick the first token of
positive probability). -/
def usG : ℕ → ℚ := fun _ => 0

/-- The example-scenario input `[1, 3, 4, 0]` as a batch of one. -/
def idx5 : List (List ℕ) := [[1, 3, 4, 0]]

/-- The example-scenario targets `[3, 4, 2, -1]` as a batch of one. -/
def tgt5 : List (List ℤ) := [[3, 4, 2, -1]]

/-- Claim C4: the spec scenario says `generate` on a freshly initialized
model with prefix `[1]`, `max_new_tokens=3`, temperature 1 and no top-k
returns a sequence of 2 to 4 tokens. On the code, the first `forward` call
flattens a context of length 1 into a vector of width `1 * n_embd`, which
the bottleneck projection (`in_features = block_size * n_embd`) cannot
multiply, so the call raises a shape error instead of returning whenever
the conditioning context is shorter than `block_size` — here at the
scenario configuration `block_size = 4`. -/
theorem generate_prefix_one_raises :
    GPT.generate cfg4 W4 PG [1] 3 1 none dsG usG =
      .error "RuntimeError: mat1 and mat2 shapes cannot be multiplied" := by decide

/-- Claim C5: on the spec scenario (vocab 5, block 4, input `[1,3,4,0]`),
`forward` without targets does return `(1,4,5)`-shaped logits, but
`forward` with targets `[3,4,2,-1]` raises: after the primary
cross-entropy (which honours `ignore_index=-1`), the code feeds the same
targets to `torch.bincount` inside `_custom_loss`, which rejects the
negative ignore sentinel — no loss is ever returned. -/
theorem forward_scenario_histogram_loss_raises :
    GPT.forward cfg4 W4 PG idx5 none false dG =
      .ok (.out [List.replicate 4 (List.replicate 5 (0 : ℚ))] none) ∧
    GPT.forward cfg4 W4 PG idx5 (some tgt5) false dG =
      .error "RuntimeError: bincount only supports non-negative input values" := by
  exact ⟨by decide, by decide⟩

/-- Claim C10: `forward` without targets is not total. `loss2` stays `None`
and `alt_loss2` is never assigned, yet the logging branches read both: when
the first draw is below `0.0005` the call raises a `TypeError`
(`float(None)`), when the second draw is below `0.005` it raises an
`UnboundLocalError` (`alt_loss2`); with draws that avoid both branches the
same call returns the `(logits, None)` pair. -/
theorem forward_without_targets_not_total :
    GPT.forward cfgG WG PG [[1]] none false dBad1 =
      .error "TypeError: float() argument must be a string or a real number, not NoneType" ∧
    GPT.forward cfgG WG PG [[1]] none false dBad2 =
      .error "UnboundLocalError: local variable alt_loss2 referenced before assignment" ∧
    GPT.forward cfgG WG PG [[1]] none false dG = .ok (.out [[[0, 0, 0]]] none) := by
  exact ⟨by decide, by decide, by decide⟩

/-- Claim C9: after construction, `transformer.wte.weight`,
`encoder.wte.weight` and `lm_head.weight` refer to one and the same tensor
(so any heap of tensor values reads the same value through all three), and
a `forward` call leaves the parameter state untouched. -/
theorem gpt_weight_tying (cfg : GPTConfig) :
    (GPT.initRefs cfg).transformerWte = (GPT.initRefs cfg).lmHead ∧
    (GPT.initRefs cfg).encWte = (GPT.initRefs cfg).lmHead ∧
    (∀ heap : ℕ → Mat,
      heap ((GPT.initRefs cfg).transformerWte) = heap ((GPT.initRefs cfg).lmHead) ∧
      heap ((GPT.initRefs cfg).encWte) = heap ((GPT.initRefs cfg).lmHead)) ∧
    (∀ (W : GPTWeights) (P : Prims) (idx : List (List ℕ)) (targets : Option (List (List ℤ)))
        (embedding : Bool) (d : Draws),
      (GPT.forwardCall cfg W P idx targets embedding d).2 = W) :=
  ⟨rfl, rfl, fun _ => ⟨rfl, rfl⟩, fun _ _ _ _ _ _ => rfl⟩

/-- Claim C7: a batch whose sequence length exceeds the configured block
size makes `forward` fail with the assertion error before any computation;
for a length within the block size the assertion itself passes. -/
theorem forward_blockSize_assert (cfg : GPTConfig) (W : GPTWeights) (P : Prims)
    (idx : List (List ℕ)) (targets : Option (List (List ℤ))) (embedding : Bool) (d : Draws) :
    (cfg.block_size < seqLen idx →
      GPT.forward cfg W P idx targets embedding d =
        .error "AssertionError: Cannot forward sequence, block size exceeded") ∧
    (seqLen idx ≤ cfg.block_size →
      blockSizeGuard cfg (seqLen idx) = .ok ()) := by
  constructor
  · intro h
    have hg : blockSizeGuard cfg (seqLen idx) =
        .error "AssertionError: Cannot forward sequence, block size exceeded" := by
      unfold blockSizeGuard
      rw [if_pos h]
    simp only [GPT.forward, hg]
  · intro h
    unfold blockSizeGuard
    rw [if_neg (Nat.not_lt.mpr h)]

/-- Concrete instance of `forward_blockSize_assert`: at `block_size = 1`, a
length-2 batch is refused with the assertion error, and a length-1 batch
passes the assertion. -/
theorem forward_blockSize_assert_witness :
    GPT.forward cfgG WG PG [[1, 1]] none false dG =
      .error "AssertionError: Cannot forward sequence, block size exceeded" ∧
    blockSizeGuard cfgG (seqLen [[1]]) = .ok () :=
  ⟨(forward_blockSize_assert cfgG WG PG [[1, 1]] none false dG).1 (by decide),
   (forward_blockSize_assert cfgG WG PG [[1]] none false dG).2 (by decide)⟩

/-- Invariant of the sampling loop of `GPT.generate`: a successful run
appends at most `fuel` tokens, the appended tokens before the last are
never the end-of-sequence id, a run that stops before exhausting `fuel`
ends on the end-of-sequence id, and a run with fuel left appends at least
one token. -/
theorem genLoop_spec (cfg : GPTConfig) (W : GPTWeights) (P : Prims) (temp : ℚ)
    (topK : Option ℕ) (ds : ℕ → Draws) (us : ℕ → ℚ) :
    ∀ (fuel step : ℕ) (cur res : List ℕ),
      GPT.genLoop cfg W P temp topK ds us step fuel cur = .ok res →
      ∃ new : List ℕ,
        res = cur ++ new ∧
        new.length ≤ fuel ∧
        (new.length < fuel → new.getLast? = some END_OF_SENTENCE_IDX) ∧
        (∀ i, i + 1 < new.length → new[i]? ≠ some END_OF_SENTENCE_IDX) ∧
        (0 < fuel → 0 < new.length) := by
  intro fuel
  induction fuel with
  | zero =>
    intro step cur res h
    simp only [GPT.genLoop] at h
    cases h
    exact ⟨[], by simp⟩
  | succ fuel ih =>
    intro step cur res h
    simp only [GPT.genLoop] at h
    split at h
    · cases h
    · cases h
    · rename_i logits _
      split at h
      · cases h
      · rename_i tok htok
        split at h
        · rename_i heos
          cases h
          refine ⟨[tok], by simp, by simp, ?_, ?_, by simp⟩
          · intro _
            simp [heos]
          · intro i hi
            simp at hi
        · rename_i heos
          obtain ⟨new2, hres, hlen, hearly, hmid, hpos⟩ :=
            ih (step + 1) (cur ++ [tok]) res h
          refine ⟨tok :: new2, ?_, ?_, ?_, ?_, ?_⟩
          · simpa [List.append_assoc] using hres
          · simpa using Nat.succ_le_succ hlen
          · intro hshort
            have hlt : new2.length < fuel := by simpa using hshort
            have hne : new2 ≠ [] := by
              intro hnil
              have h0 : 0 < fuel := by
                simpa [hnil] using hlt
              have := hpos h0
              simp [hnil] at this
            obtain ⟨b, l2, rfl⟩ := List.exists_cons_of_ne_nil hne
            simpa [List.getLast?_cons_cons] using hearly hlt
          · intro i hi
            match i with
            | 0 => simpa using heos
            | j + 1 =>
              have hj : j + 1 < new2.length := by simpa using hi
              simpa using hmid j hj
          · intro _
            simp

/-- Claim C1: whenever `generate(idx, max_new_tokens, temperature, top_k)`
returns, the returned sequence is the conditioning prefix followed by the
newly sampled tokens; at most `max_new_tokens` tokens were sampled (the
loop runs at most that many iterations, one sample per iteration); no
sampled token except possibly the last equals the end-of-sequence id 2; the
loop stopped before `max_new_tokens` iterations exactly when the last
sampled token is the end-of-sequence id; and with a positive budget at
least one token is sampled. -/
theorem generate_spec (cfg : GPTConfig) (W : GPTWeights) (P : Prims) (idx0 : List ℕ)
    (maxNew : ℕ) (temp : ℚ) (topK : Option ℕ) (ds : ℕ → Draws) (us : ℕ → ℚ)
    (res : List ℕ)
    (h : GPT.generate cfg W P idx0 maxNew temp topK ds us = .ok res) :
    ∃ new : List ℕ,
      res = idx0 ++ new ∧
      new.length ≤ maxNew ∧
      (new.length < maxNew → new.getLast? = some END_OF_SENTENCE_IDX) ∧
      (∀ i, i + 1 < new.length → new[i]? ≠ some END_OF_SENTENCE_IDX) ∧
      (0 < maxNew → 0 < new.length) :=
  genLoop_spec cfg W P temp topK ds us maxNew 0 idx0 res h

/-- Concrete instance of `generate_spec`: a run of the tiny model that
returns `[1, 0]` after sampling one token from a budget of one. -/
theorem generate_spec_witness :
    GPT.generate cfgG WG PG [1] 1 1 none dsG usG = .ok [1, 0] ∧
    (∃ new : List ℕ,
      ([1, 0] : List ℕ) = [1] ++ new ∧
      new.length ≤ 1 ∧
      (new.length < 1 → new.getLast? = some END_OF_SENTENCE_IDX) ∧
      (∀ i, i + 1 < new.length → new[i]? ≠ some END_OF_SENTENCE_IDX) ∧
      (0 < 1 → 0 < new.length)) :=
  ⟨by decide, generate_spec cfgG WG PG [1] 1 1 none dsG usG [1, 0] (by decide)⟩

/-- A successful `multinomialGo` run lands on an entry of positive weight. -/
theorem multinomialGo_ok : ∀ (ps : List ℚ) (x : ℚ) (n i : ℕ),
    multinomialGo ps x n = .ok i → 0 ≤ x →
    n ≤ i ∧ i - n < ps.length ∧ 0 < ps.getD (i - n) 0 := by
  intro ps
  induction ps with
  | nil => intro x n i h _; simp [multinomialGo] at h
  | cons p ps ih =>
    intro x n i h hx
    rw [multinomialGo] at h
    split at h
    · rename_i hlt
      cases h
      exact ⟨le_refl _, by simp, by simpa using lt_of_le_of_lt hx hlt⟩
    · rename_i hge
      obtain ⟨hni, hlen, hpos⟩ := ih (x - p) (n + 1) i h (by linarith [not_lt.mp hge])
      have hni2 : n ≤ i := le_trans (Nat.le_succ n) hni
      have hsub : i - n = (i - (n + 1)) + 1 := by omega
      refine ⟨hni2, by simpa [hsub] using Nat.succ_lt_succ hlen, ?_⟩
      rw [hsub]
      simpa using hpos

/-- A successful `torch.multinomial` sample has positive probability. -/
theorem multinomialPick_ok (ps : List ℚ) (u : ℚ) (i : ℕ)
    (h : multinomialPick ps u = .ok i) (hu : 0 ≤ u) :
    i < ps.length ∧ 0 < ps.getD i 0 := by
  rw [multinomialPick] at h
  split at h
  · cases h
  · rename_i hsum
    have hx : 0 ≤ u * ps.sum := mul_nonneg hu (le_of_lt (not_le.mp hsum))
    obtain ⟨_, hlen, hpos⟩ := multinomialGo_ok ps (u * ps.sum) 0 i h hx
    refine ⟨by simpa using hlen, by simpa using hpos⟩

/-- `softmaxMasked` gives probability `0` to every masked (`-inf`) entry, so
an entry of positive probability is unmasked. -/
theorem softmaxMasked_pos (P : Prims) (row : List (Option ℚ)) (i : ℕ)
    (hi : i < row.length) (h : 0 < (softmaxMasked P row).getD i 0) :
    ∃ s, row[i]? = some (some s) := by
  rw [softmaxMasked] at h
  rw [List.getD_eq_getElem?_getD, List.getElem?_map, List.getElem?_eq_getElem hi] at h
  cases hrow : row[i] with
  | none => rw [hrow] at h; simp at h
  | some s => exact ⟨s, by rw [List.getElem?_eq_getElem hi, hrow]⟩

/-- In a descending-sorted list, at most `k - 1` entries are strictly above
the entry at index `k - 1`. -/
theorem countP_gt_le_of_sorted (s : Vec) (k : ℕ) (x : ℚ) (hk : k - 1 < s.length)
    (hs : List.Sorted (· ≥ ·) s) (hx : s.getD (k - 1) 0 ≤ x) :
    s.countP (fun y => decide (x < y)) ≤ k - 1 := by
  have hsplit := List.take_append_drop (k - 1) s
  have hdrop : (s.drop (k - 1)).countP (fun y => decide (x < y)) = 0 := by
    rw [List.countP_eq_zero]
    intro y hy
    obtain ⟨m, hm, hget⟩ := List.getElem_of_mem hy
    have hidx : (k - 1) + m < s.length := by
      have := hm
      simp [List.length_drop] at this
      omega
    have hyeq : y = s[(k - 1) + m] := by
      rw [← hget]
      rw [List.getElem_drop]
    have hle : s[(k - 1) + m] ≤ s.getD (k - 1) 0 := by
      rcases Nat.eq_zero_or_pos m with hm0 | hm0
      · subst hm0
        rw [List.getD_eq_getElem?_getD, List.getElem?_eq_getElem hk]
        simp
      · have hrel := List.pairwise_iff_get.mp hs ⟨k - 1, hk⟩ ⟨(k - 1) + m, hidx⟩ (by
          simp only [Fin.mk_lt_mk]
          omega)
        rw [List.getD_eq_getElem?_getD, List.getElem?_eq_getElem hk]
        simpa using hrel
    simp only [decide_eq_true_eq, not_lt]
    rw [hyeq]
    exact le_trans hle hx
  calc s.countP (fun y => decide (x < y))
      = (s.take (k - 1) ++ s.drop (k - 1)).countP (fun y => decide (x < y)) := by rw [hsplit]
    _ = (s.take (k - 1)).countP (fun y => decide (x < y)) +
        (s.drop (k - 1)).countP (fun y => decide (x < y)) := List.countP_append _ _ _
    _ ≤ (s.take (k - 1)).length + 0 := by
        rw [hdrop]
        exact Nat.add_le_add_right (List.countP_le_length _) 0
    _ ≤ k - 1 := by simp [List.length_take]

/-- `softmaxMasked` preserves length. -/
theorem softmaxMasked_length (P : Prims) (row : List (Option ℚ)) :
    (softmaxMasked P row).length = row.length := by
  simp [softmaxMasked]

/-- `sortDesc` sorts descending. -/
theorem sortDesc_sorted (l : Vec) : List.Sorted (· ≥ ·) (sortDesc l) :=
  List.sorted_insertionSort _ l

/-- `sortDesc` permutes its input. -/
theorem sortDesc_perm (l : Vec) : (sortDesc l).Perm l :=
  List.perm_insertionSort _ l

/-- `sortDesc` preserves length. -/
theorem sortDesc_length (l : Vec) : (sortDesc l).length = l.length :=
  (sortDesc_perm l).length_eq

/-- Claim C6: when a top-k restriction `k ≥ 1` is configured, any token id
a generation step samples lies within the vocabulary and its pre-softmax
logit is among the `k` highest logits of that step: fewer than `k` logits
are strictly greater (every token whose scaled logit is strictly below the
`k`-th highest is masked to `-inf` and receives probability zero, and
`multinomial` never picks probability zero). -/
theorem sampleStep_topk (P : Prims) (temp : ℚ) (k : ℕ) (l : Vec) (u : ℚ) (i : ℕ)
    (hu : 0 ≤ u) (ht : 0 < temp)
    (hok : sampleStep P temp (some k) l u = .ok i) :
    i < l.length ∧ l.countP (fun y => decide (l.getD i 0 < y)) < k := by
  simp only [sampleStep] at hok
  split at hok
  · cases hok
  · rename_i hkk
    set scaled : Vec := l.map (fun s => s / temp) with hscaled
    set kk := min k scaled.length with hkkdef
    set kv := (sortDesc scaled).getD (kk - 1) 0 with hkv
    set masked := scaled.map (fun s => if s < kv then none else some s) with hmasked
    obtain ⟨hilt, hpos⟩ := multinomialPick_ok _ u i hok hu
    have hlenm : (softmaxMasked P masked).length = scaled.length := by
      rw [softmaxMasked_length, hmasked, List.length_map]
    have hisc : i < scaled.length := by rw [← hlenm]; exact hilt
    have hil : i < l.length := by
      have := hisc
      rwa [hscaled, List.length_map] at this
    obtain ⟨s, hsome⟩ := softmaxMasked_pos P masked i (by rw [hmasked, List.length_map]; exact hisc) hpos
    have hsome2 : (if scaled[i] < kv then (none : Option ℚ) else some scaled[i]) = some s := by
      rw [hmasked] at hsome
      rw [List.getElem?_map, List.getElem?_eq_getElem hisc] at hsome
      simpa using hsome
    have hge : kv ≤ scaled[i] := by
      by_contra hcon
      rw [if_pos (not_le.mp hcon)] at hsome2
      cases hsome2
    -- the count of strictly larger scaled logits is below kk
    have hkklen : kk ≤ scaled.length := by rw [hkkdef]; exact min_le_right _ _
    have hkkpos : 0 < kk := Nat.pos_of_ne_zero hkk
    have hsortlen : kk - 1 < (sortDesc scaled).length := by
      rw [sortDesc_length]
      omega
    have hcount1 : (sortDesc scaled).countP (fun y => decide (scaled[i] < y)) ≤ kk - 1 :=
      countP_gt_le_of_sorted (sortDesc scaled) kk scaled[i] hsortlen (sortDesc_sorted scaled)
        (by rw [← hkv]; exact hge)
    have hcount2 : scaled.countP (fun y => decide (scaled[i] < y)) ≤ kk - 1 := by
      rw [← (sortDesc_perm scaled).countP_eq]
      exact hcount1
    -- transfer from the scaled logits back to the raw logits
    have hgel : scaled[i] = l.getD i 0 / temp := by
      have h1 : scaled[i]? = some (l.getD i 0 / temp) := by
        rw [hscaled, List.getElem?_map, List.getElem?_eq_getElem hil,
          List.getD_eq_getElem?_getD, List.getElem?_eq_getElem hil]
        simp
      have h2 : scaled[i]? = some scaled[i] := List.getElem?_eq_getElem hisc
      rw [h2] at h1
      exact Option.some.inj h1
    have hdiv : ∀ a b : ℚ, a / temp < b / temp ↔ a < b := by
      intro a b
      rw [div_eq_mul_inv, div_eq_mul_inv]
      exact mul_lt_mul_right (inv_pos.mpr ht)
    have hcount3 : scaled.countP (fun y => decide (scaled[i] < y)) =
        l.countP (fun y => decide (l.getD i 0 < y)) := by
      rw [hgel, hscaled, List.countP_map]
      refine List.countP_congr ?_
      intro a _
      simp only [Function.comp, decide_eq_decide, decide_eq_true_eq]
      exact hdiv _ a
    refine ⟨hil, ?_⟩
    rw [← hcount3]
    have : kk ≤ k := by rw [hkkdef]; exact min_le_left _ _
    omega

/-- Concrete instance of `sampleStep_topk`: with `k = 1` and logits
`[0, 5, 1]`, the step samples token 1, whose logit 5 has no logit above it. -/
theorem sampleStep_topk_witness :
    sampleStep PG 1 (some 1) [0, 5, 1] 0 = .ok 1 ∧
    (1 < ([0, 5, 1] : Vec).length ∧
      ([0, 5, 1] : Vec).countP (fun y => decide (([0, 5, 1] : Vec).getD 1 0 < y)) < 1) :=
  ⟨by decide,
   sampleStep_topk PG 1 1 [0, 5, 1] 0 1 (by norm_num) (by norm_num) (by decide)⟩

/-- `getD` respects `getElem?` equality. -/
theorem getD_congr {α : Type} (l l2 : List α) (p : ℕ) (d : α) (h : l[p]? = l2[p]?) :
    l.getD p d = l2.getD p d := by
  rw [List.getD_eq_getElem?_getD, List.getD_eq_getElem?_getD, h]

/-- `getD` through a `map`, inside the range. -/
theorem getD_map_lt {α β : Type} (f : α → β) (x : List α) (p : ℕ) (d : β) (dd : α)
    (hp : p < x.length) : (x.map f).getD p d = f (x.getD p dd) := by
  rw [List.getD_eq_getElem?_getD, List.getElem?_map, List.getElem?_eq_getElem hp,
    List.getD_eq_getElem?_getD, List.getElem?_eq_getElem hp]
  simp

/-- The length of a `linear` output does not depend on the input vector. -/
theorem linear_length (W : Mat) (b : Option Vec) (x : Vec) :
    (linear W b x).length = b.elim W.length (fun bb => min W.length bb.length) := by
  cases b <;> simp [linear]

/-- The length of a head-value slice depends only on the length of the
fused projection row. -/
theorem vPart_length_eq (C h hs : ℕ) (v w : Vec) (hvw : v.length = w.length) :
    (vPart C h hs v).length = (vPart C h hs w).length := by
  simp [vPart, hvw]

/-- Scaling by zero erases the vector values, leaving only its length. -/
theorem map_zero_mul (v : Vec) : v.map (fun a => (0 : ℚ) * a) = List.replicate v.length 0 := by
  induction v with
  | nil => simp
  | cons a l ih => simp [ih, List.replicate_succ]

/-- `softmaxMasked` gives probability zero at a masked (`-inf`) entry. -/
theorem softmaxMasked_zero (P : Prims) (row : List (Option ℚ)) (t : ℕ)
    (h : row[t]? = some none) : (softmaxMasked P row).getD t 0 = 0 := by
  rw [softmaxMasked, List.getD_eq_getElem?_getD, List.getElem?_map, h]
  rfl

/-- The scaled summands of `weightedSum` agree whenever the vectors agree at
every index of nonzero weight and have equal lengths elsewhere. -/
theorem zipScale_congr : ∀ (ps : List ℚ) (vs vs2 : List Vec),
    vs.length = vs2.length →
    (∀ t, t < vs.length → (vs.getD t []).length = (vs2.getD t []).length ∧
      (ps.getD t 0 ≠ 0 → vs.getD t [] = vs2.getD t [])) →
    List.zipWith (fun p v => v.map (fun a => p * a)) ps vs =
      List.zipWith (fun p v => v.map (fun a => p * a)) ps vs2 := by
  intro ps
  induction ps with
  | nil => intro vs vs2 _ _; simp
  | cons p ps ih =>
    intro vs vs2 hlen hv
    cases vs with
    | nil =>
      cases vs2 with
      | nil => simp
      | cons b l => simp at hlen
    | cons v vs0 =>
      cases vs2 with
      | nil => simp at hlen
      | cons v2 vs02 =>
        simp only [List.zipWith_cons_cons]
        have h0 := hv 0 (by simp)
        congr 1
        · by_cases hp : p = 0
          · subst hp
            have hl : v.length = v2.length := by simpa using h0.1
            rw [map_zero_mul v, map_zero_mul v2, hl]
          · have heq : v = v2 := by simpa using h0.2 (by simpa using hp)
            rw [heq]
        · refine ih vs0 vs02 (by simpa using hlen) ?_
          intro t ht
          have := hv (t + 1) (by simpa using Nat.succ_lt_succ ht)
          simpa using this

/-- `weightedSum` congruence: the contraction ignores vectors of zero
weight (only their length matters, through the running zip). -/
theorem weightedSum_congr (n : ℕ) (ps : List ℚ) (vs vs2 : List Vec)
    (hlen : vs.length = vs2.length)
    (hv : ∀ t, t < vs.length → (vs.getD t []).length = (vs2.getD t []).length ∧
      (ps.getD t 0 ≠ 0 → vs.getD t [] = vs2.getD t [])) :
    weightedSum n ps vs = weightedSum n ps vs2 := by
  unfold weightedSum
  rw [zipScale_congr ps vs vs2 hlen hv]

/-- `getD` of a mapped range, inside the range. -/
theorem getD_range_map {β : Type} (f : ℕ → β) (L t : ℕ) (d : β) (ht : t < L) :
    ((List.range L).map f).getD t d = f t := by
  rw [List.getD_eq_getElem?_getD, List.getElem?_map, List.getElem?_range ht]
  rfl

/-- Causality of one attention sequence: if two inputs of equal length agree
everywhere except at position `j`, the attention outputs at any position
`i < j` agree. Position `i` only reads `q_i`, the keys and values at
positions `≤ i` (the masked entries beyond `i` carry probability zero and
contribute a zero summand of the same length). -/
theorem csaSeq_causal (P : Prims) (nh C : ℕ) (Wa : Mat) (ba : Option Vec) (Wp : Mat)
    (bp : Option Vec) (x x2 : Mat) (i j : ℕ)
    (hlen : x.length = x2.length)
    (hagree : ∀ p, p ≠ j → x[p]? = x2[p]?)
    (hij : i < j) :
    (csaSeq P nh C Wa ba Wp bp x)[i]? = (csaSeq P nh C Wa ba Wp bp x2)[i]? := by
  simp only [csaSeq]
  set hs := C / nh with hhs
  have hqlen : (x.map (linear Wa ba)).length = (x2.map (linear Wa ba)).length := by
    simp [hlen]
  have hqagree : ∀ p, p ≠ j →
      (x.map (linear Wa ba))[p]? = (x2.map (linear Wa ba))[p]? := by
    intro p hp
    rw [List.getElem?_map, List.getElem?_map, hagree p hp]
  have hqrow : ∀ p, p ≠ j →
      (x.map (linear Wa ba)).getD p [] = (x2.map (linear Wa ba)).getD p [] := by
    intro p hp
    exact getD_congr _ _ p [] (hqagree p hp)
  have hqrowlen : ∀ p,
      ((x.map (linear Wa ba)).getD p []).length =
        ((x2.map (linear Wa ba)).getD p []).length := by
    intro p
    by_cases hp : p < x.length
    · rw [getD_map_lt (linear Wa ba) x p [] [] hp,
        getD_map_lt (linear Wa ba) x2 p [] [] (hlen ▸ hp),
        linear_length, linear_length]
    · have hp2 : ¬ p < x2.length := by rw [← hlen]; exact hp
      rw [List.getD_eq_getElem?_getD, List.getD_eq_getElem?_getD,
        List.getElem?_map, List.getElem?_map,
        List.getElem?_eq_none (le_of_not_lt hp), List.getElem?_eq_none (le_of_not_lt hp2)]
  have hscores : ∀ h : ℕ, attnScoresRow P C h hs (x.map (linear Wa ba)) i =
      attnScoresRow P C h hs (x2.map (linear Wa ba)) i := by
    intro h
    unfold attnScoresRow
    rw [hqlen]
    refine List.map_congr_left ?_
    intro j2 _
    by_cases hji : j2 ≤ i
    · rw [if_pos hji, if_pos hji,
        hqrow i (Nat.ne_of_lt hij), hqrow j2 (Nat.ne_of_lt (lt_of_le_of_lt hji hij))]
    · rw [if_neg hji, if_neg hji]
  have hhead : ∀ h : ℕ, headAt P C h hs (x.map (linear Wa ba)) i =
      headAt P C h hs (x2.map (linear Wa ba)) i := by
    intro h
    unfold headAt
    rw [hscores h, hqlen]
    refine weightedSum_congr hs _ _ _ (by simp) ?_
    intro t ht
    have htL : t < (x2.map (linear Wa ba)).length := by simpa using ht
    rw [getD_range_map _ _ t [] htL, getD_range_map _ _ t [] htL]
    constructor
    · exact vPart_length_eq C h hs _ _ (hqrowlen t)
    · intro hne
      by_cases htj : t = j
      · exfalso
        apply hne
        subst htj
        have hrowj : (attnScoresRow P C h hs (x2.map (linear Wa ba)) i)[t]? = some none := by
          unfold attnScoresRow
          rw [List.getElem?_map, List.getElem?_range htL]
          simp only [Option.map_some']
          rw [if_neg (Nat.not_le.mpr hij)]
        exact softmaxMasked_zero P _ t hrowj
      · rw [hqrow t htj]
  rw [hlen]
  by_cases hiL : i < x2.length
  · rw [List.getElem?_map, List.getElem?_map, List.getElem?_range hiL]
    simp only [Option.map_some']
    have harg : (List.range nh).map (fun h => headAt P C h hs (x.map (linear Wa ba)) i) =
        (List.range nh).map (fun h => headAt P C h hs (x2.map (linear Wa ba)) i) :=
      List.map_congr_left (fun h _ => hhead h)
    rw [harg]
  · rw [List.getElem?_map, List.getElem?_map,
      List.getElem?_eq_none (by simpa using le_of_not_lt hiL),
      Option.map_none', Option.map_none']

/-- Attention preserves the number of positions. -/
theorem csaSeq_length (P : Prims) (nh C : ℕ) (Wa : Mat) (ba : Option Vec) (Wp : Mat)
    (bp : Option Vec) (x : Mat) : (csaSeq P nh C Wa ba Wp bp x).length = x.length := by
  simp [csaSeq]

/-- Every attention output vector has the width of the output projection. -/
theorem csaSeq_vec_length (P : Prims) (nh C : ℕ) (Wa : Mat) (ba : Option Vec) (Wp : Mat)
    (bp : Option Vec) (x : Mat) (hWp : Wp.length = C) (hbp : optLen C bp) :
    ∀ v ∈ csaSeq P nh C Wa ba Wp bp x, v.length = C := by
  intro v hv
  simp only [csaSeq, List.mem_map] at hv
  obtain ⟨i2, _, rfl⟩ := hv
  rw [linear_length]
  cases bp with
  | none => simpa using hWp
  | some bb =>
    simp only [optLen, Option.map_some', Option.getD_some] at hbp
    simp [hWp, hbp]

/-- `getD` out of range returns the default. -/
theorem getD_oob {α : Type} (l : List α) (n : ℕ) (d : α) (h : l.length ≤ n) :
    l.getD n d = d := by
  rw [List.getD_eq_getElem?_getD, List.getElem?_eq_none h]
  rfl

/-- `getD` in range is a member. -/
theorem getD_mem {α : Type} (l : List α) (n : ℕ) (d : α) (h : n < l.length) :
    l.getD n d ∈ l := by
  rw [List.getD_eq_getElem?_getD, List.getElem?_eq_getElem h]
  simp only [Option.getD_some]
  exact List.getElem_mem h

/-- Claim C2: the causal self-attention block maps a `(B, T, C)` batch to a
tensor of the same shape (same batch size, same per-row position count,
same feature width), and no information flows backwards: if two input
batches agree except in row `bi` at position `j`, the outputs agree at
every position `i < j` of every row. -/
theorem csaForward_causal_shape (P : Prims) (nh C : ℕ) (Wa : Mat) (ba : Option Vec)
    (Wp : Mat) (bp : Option Vec) (xb xb2 : Mat3) (bi i j : ℕ)
    (hWp : Wp.length = C) (hbp : optLen C bp)
    (hCx : ∀ row ∈ xb, ∀ v ∈ row, v.length = C)
    (hlenb : xb.length = xb2.length)
    (hrows : ∀ b2, b2 ≠ bi → xb[b2]? = xb2[b2]?)
    (hseq : (xb.getD bi []).length = (xb2.getD bi []).length)
    (hagree : ∀ p, p ≠ j → (xb.getD bi [])[p]? = (xb2.getD bi [])[p]?)
    (hij : i < j) :
    ((CausalSelfAttention.forward P nh C Wa ba Wp bp xb).length = xb.length ∧
      (∀ b2 : ℕ, ((CausalSelfAttention.forward P nh C Wa ba Wp bp xb).getD b2 []).length =
        (xb.getD b2 []).length) ∧
      (∀ b2 p : ℕ,
        (((CausalSelfAttention.forward P nh C Wa ba Wp bp xb).getD b2 []).getD p []).length =
          ((xb.getD b2 []).getD p []).length)) ∧
    (∀ b2 : ℕ, ((CausalSelfAttention.forward P nh C Wa ba Wp bp xb).getD b2 [])[i]? =
      ((CausalSelfAttention.forward P nh C Wa ba Wp bp xb2).getD b2 [])[i]?) := by
  refine ⟨⟨by simp [CausalSelfAttention.forward], ?_, ?_⟩, ?_⟩
  · intro b2
    by_cases hb2 : b2 < xb.length
    · rw [CausalSelfAttention.forward, getD_map_lt _ xb b2 [] [] hb2, csaSeq_length]
    · rw [CausalSelfAttention.forward,
        getD_oob _ _ _ (by simpa using le_of_not_lt hb2),
        getD_oob _ _ _ (le_of_not_lt hb2)]
  · intro b2 p
    by_cases hb2 : b2 < xb.length
    · rw [CausalSelfAttention.forward, getD_map_lt _ xb b2 [] [] hb2]
      by_cases hp : p < (xb.getD b2 []).length
      · have hout : p < (csaSeq P nh C Wa ba Wp bp (xb.getD b2 [])).length := by
          rw [csaSeq_length]; exact hp
        have hv := csaSeq_vec_length P nh C Wa ba Wp bp (xb.getD b2 []) hWp hbp
          ((csaSeq P nh C Wa ba Wp bp (xb.getD b2 [])).getD p []) (getD_mem _ _ _ hout)
        have hin : ((xb.getD b2 []).getD p []).length = C :=
          hCx (xb.getD b2 []) (getD_mem _ _ _ hb2) _ (getD_mem _ _ _ hp)
        rw [hv, hin]
      · rw [getD_oob (csaSeq P nh C Wa ba Wp bp (xb.getD b2 [])) p []
            (by rw [csaSeq_length]; exact le_of_not_lt hp),
          getD_oob (xb.getD b2 []) p [] (le_of_not_lt hp)]
    · rw [CausalSelfAttention.forward,
        getD_oob (xb.map (csaSeq P nh C Wa ba Wp bp)) b2 [] (by simpa using le_of_not_lt hb2),
        getD_oob xb b2 [] (le_of_not_lt hb2)]
  · intro b2
    by_cases hbi : b2 = bi
    · subst hbi
      by_cases hb2 : b2 < xb.length
      · rw [CausalSelfAttention.forward, CausalSelfAttention.forward,
          getD_map_lt _ xb b2 [] [] hb2, getD_map_lt _ xb2 b2 [] [] (hlenb ▸ hb2)]
        exact csaSeq_causal P nh C Wa ba Wp bp _ _ i j hseq hagree hij
      · have hb22 : ¬ b2 < xb2.length := by rw [← hlenb]; exact hb2
        rw [CausalSelfAttention.forward, CausalSelfAttention.forward,
          getD_oob _ _ _ (by simpa using le_of_not_lt hb2),
          getD_oob _ _ _ (by simpa using le_of_not_lt hb22)]
    · rw [CausalSelfAttention.forward, CausalSelfAttention.forward]
      have hrow := hrows b2 hbi
      have hmap : (xb.map (csaSeq P nh C Wa ba Wp bp))[b2]? =
          (xb2.map (csaSeq P nh C Wa ba Wp bp))[b2]? := by
        rw [List.getElem?_map, List.getElem?_map, hrow]
      rw [getD_congr _ _ b2 [] hmap]

/-- Concrete instance of `csaForward_causal_shape`: changing position 1 of
the input leaves the attention output at position 0 unchanged, and the
batch size is preserved. -/
theorem csaForward_causal_witness :
    (CausalSelfAttention.forward PG 1 1 [[1], [1], [1]] none [[1]] none [[[1], [2]]]).length =
      ([[[1], [2]]] : Mat3).length ∧
    ((CausalSelfAttention.forward PG 1 1 [[1], [1], [1]] none [[1]] none [[[1], [2]]]).getD 0 [])[0]? =
      ((CausalSelfAttention.forward PG 1 1 [[1], [1], [1]] none [[1]] none [[[1], [3]]]).getD 0 [])[0]? :=
  have H := csaForward_causal_shape PG 1 1 [[1], [1], [1]] none [[1]] none
    [[[1], [2]]] [[[1], [3]]] 0 0 1 (by decide) (by decide) (by decide) (by decide)
    (by
      intro b2 hb2
      rcases b2 with _ | n
      · exact absurd rfl hb2
      · simp)
    (by decide)
    (by
      intro p hp
      rcases p with _ | _ | n
      · decide
      · exact absurd rfl hp
      · simp)
    (by decide)
  ⟨H.1.1, H.2 0⟩

/-- Claim C8: with dropout disabled (inference mode) and fixed weights, the
value `forward` returns is a function of the input ids and the weights
alone: two calls that both return — under any internal random draws —
return the same result. The intensity draw feeds only the unused intensity
embedding, and the logging draws only decide whether an exception fires. -/
theorem gptForward_deterministic (cfg : GPTConfig) (W : GPTWeights) (P : Prims)
    (idx : List (List ℕ)) (targets : Option (List (List ℤ))) (embedding : Bool)
    (d d2 : Draws) (r r2 : FwdResult)
    (h : GPT.forward cfg W P idx targets embedding d = .ok r)
    (h2 : GPT.forward cfg W P idx targets embedding d2 = .ok r2) : r = r2 := by
  simp only [GPT.forward] at h h2
  cases hbs : blockSizeGuard cfg (seqLen idx) with
  | error e => simp only [hbs] at h; cases h
  | ok u =>
  simp only [hbs] at h h2
  cases htok : mapE (fun row => mapE (lookupRow W.encWte) row) idx with
  | error e => simp only [htok] at h; cases h
  | ok tokEmb =>
  simp only [htok] at h h2
  cases hpos : mapE (lookupRow W.encWpe) (List.range (seqLen idx)) with
  | error e => simp only [hpos] at h; cases h
  | ok posEmb =>
  simp only [hpos] at h h2
  cases hins : mapE (fun i => lookupRow W.encWie (d.ins i % NUM_INTENSITIES))
      (List.range (seqLen idx)) with
  | error e => simp only [hins] at h; cases h
  | ok insEmb =>
  simp only [hins] at h
  cases hins2 : mapE (fun i => lookupRow W.encWie (d2.ins i % NUM_INTENSITIES))
      (List.range (seqLen idx)) with
  | error e => simp only [hins2] at h2; cases h2
  | ok insEmb2 =>
  simp only [hins2] at h2
  cases hbtl : mapE (fun (row : Mat) =>
      if row.flatten.length = cfg.block_size * cfg.n_embd then
        Except.ok (linear W.encBottleneckW W.encBottleneckB row.flatten)
      else Except.error "RuntimeError: mat1 and mat2 shapes cannot be multiplied")
      (GPT.encodeZ cfg W P tokEmb posEmb) with
  | error e => simp only [hbtl] at h; cases h
  | ok zbottleneck =>
  simp only [hbtl] at h h2
  by_cases hemb : embedding = true
  · rw [if_pos hemb] at h h2
    cases h
    cases h2
    rfl
  · rw [if_neg hemb] at h h2
    cases hunb : mapE (fun (v : Vec) =>
        if v.length = cfg.n_bottleneck then
          Except.ok (linear W.decUnbottleneckW W.decUnbottleneckB v)
        else Except.error "RuntimeError: mat1 and mat2 shapes cannot be multiplied")
        zbottleneck with
    | error e => simp only [hunb] at h; cases h
    | ok zflat2 =>
    simp only [hunb] at h h2
    cases hchunk : mapE (fun (v : Vec) =>
        if v.length = cfg.block_size * cfg.n_embd then
          Except.ok (chunkRows cfg.block_size cfg.n_embd v)
        else Except.error "RuntimeError: shape invalid for input of size") zflat2 with
    | error e => simp only [hchunk] at h; cases h
    | ok z3 =>
    simp only [hchunk] at h h2
    cases targets with
    | some tg =>
      cases hce : crossEntropyMean P cfg.vocab_size (GPT.decodeLogits cfg W P z3).flatten
          tg.flatten with
      | error e => simp only [hce] at h; cases h
      | ok loss2 =>
      simp only [hce] at h h2
      cases hcl : customLoss P cfg.vocab_size (GPT.decodeLogits cfg W P z3) tg with
      | error e => simp only [hcl] at h; cases h
      | ok alt =>
      simp only [hcl] at h h2
      cases h
      cases h2
      rfl
    | none =>
      cases hg : loggingGuards false d with
      | error e => simp only [hg] at h; cases h
      | ok u2 =>
      simp only [hg] at h
      cases hg2 : loggingGuards false d2 with
      | error e => simp only [hg2] at h2; cases h2
      | ok u3 =>
      simp only [hg2] at h2
      cases h
      cases h2
      rfl

/-- Concrete instance of `gptForward_deterministic`: two runs on the
all-padding input `[[0]]` under different draws return the same output. -/
theorem gptForward_deterministic_witness :
    GPT.forward cfgG WG PG [[0]] none false dG = .ok (.out [[[0, 0, 0]]] none) ∧
    GPT.forward cfgG WG PG [[0]] none false dG2 = .ok (.out [[[0, 0, 0]]] none) ∧
    (FwdResult.out [[[0, 0, 0]]] none) = (FwdResult.out [[[0, 0, 0]]] none) :=
  ⟨by decide, by decide,
   gptForward_deterministic cfgG WG PG [[0]] none false dG dG2 _ _ (by decide) (by decide)⟩

/-- A successful `mapE` preserves length. -/
theorem mapE_ok_length {α β : Type} (f : α → Except String β) :
    ∀ (l : List α) (l2 : List β), mapE f l = .ok l2 → l2.length = l.length := by
  intro l
  induction l with
  | nil => intro l2 h; cases h; rfl
  | cons a l ih =>
    intro l2 h
    rw [mapE] at h
    split at h
    · cases h
    · split at h
      · cases h
      · rename_i b hb bs hbs
        cases h
        simpa using ih bs hbs

/-- Every element of a successful `mapE` output comes from an element of the
input. -/
theorem mapE_ok_forall {α β : Type} (f : α → Except String β) :
    ∀ (l : List α) (l2 : List β), mapE f l = .ok l2 →
      ∀ b ∈ l2, ∃ a ∈ l, f a = .ok b := by
  intro l
  induction l with
  | nil =>
    intro l2 h
    cases h
    intro b hb
    cases hb
  | cons a l ih =>
    intro l2 h
    rw [mapE] at h
    cases hfa : f a with
    | error e => simp only [hfa] at h; cases h
    | ok b0 =>
    simp only [hfa] at h
    cases hml : mapE f l with
    | error e => simp only [hml] at h; cases h
    | ok bs =>
    simp only [hml] at h
    cases h
    intro b hb
    rcases List.mem_cons.mp hb with hb | hb
    · exact ⟨a, by simp, by rw [hfa, hb]⟩
    · obtain ⟨a2, ha2, hfa2⟩ := ih bs hml b hb
      exact ⟨a2, by simp [ha2], hfa2⟩

/-- `mapE` succeeds when `f` succeeds on every element. -/
theorem mapE_ok_of_forall {α β : Type} (f : α → Except String β) :
    ∀ (l : List α), (∀ a ∈ l, ∃ b, f a = .ok b) → ∃ l2, mapE f l = .ok l2 := by
  intro l
  induction l with
  | nil => intro _; exact ⟨[], rfl⟩
  | cons a l ih =>
    intro hl
    obtain ⟨b, hb⟩ := hl a (by simp)
    obtain ⟨l2, hl2⟩ := ih (fun a2 ha2 => hl a2 (by simp [ha2]))
    exact ⟨b :: l2, by rw [mapE, hb, hl2]⟩

/-- In-range embedding lookups succeed with the stored row. -/
theorem lookupRow_ok (M : Mat) (i : ℕ) (h : i < M.length) :
    lookupRow M i = .ok (M.getD i []) := by
  rw [lookupRow, if_pos h]

/-- `addVec` zips, so its length is the minimum of the lengths. -/
theorem addVec_length (a b : Vec) : (addVec a b).length = min a.length b.length := by
  simp [addVec]

/-- A member of a `zipWith` is the image of members at a common index. -/
theorem mem_zipWith {α β γ : Type} {f : α → β → γ} {as : List α} {bs : List β} {c : γ}
    (h : c ∈ List.zipWith f as bs) : ∃ a ∈ as, ∃ b ∈ bs, c = f a b := by
  obtain ⟨p, hp, hc⟩ := List.mem_iff_getElem.mp h
  have hmin : p < min as.length bs.length := by
    rw [← List.length_zipWith]; exact hp
  have hpa : p < as.length := (lt_min_iff.mp hmin).1
  have hpb : p < bs.length := (lt_min_iff.mp hmin).2
  refine ⟨as[p], List.getElem_mem hpa, bs[p], List.getElem_mem hpb, ?_⟩
  rw [← hc, List.getElem_zipWith]

/-- `layerNormF` output width under well-formed scale/shift parameters. -/
theorem layerNormF_length (P : Prims) (w : Vec) (b : Option Vec) (x : Vec) (n : ℕ)
    (hw : w.length = n) (hb : optLen n b) (hx : x.length = n) :
    (layerNormF P w b x).length = n := by
  cases b with
  | none => simp [layerNormF, hw, hx]
  | some bb =>
    simp only [optLen, Option.map_some', Option.getD_some] at hb
    simp [layerNormF, hw, hx, hb]

/-- `MLP.forward` output width under a well-formed output projection. -/
theorem mlp_length (P : Prims) (bw : BlockWeights) (v : Vec) (n : ℕ)
    (hW : bw.proj2W.length = n) (hb : optLen n bw.proj2B) :
    (MLP.forward P bw v).length = n := by
  rw [MLP.forward, linear_length]
  cases hbb : bw.proj2B with
  | none => simpa using hW
  | some bb =>
    rw [hbb] at hb
    simp only [optLen, Option.map_some', Option.getD_some] at hb
    simp [hW, hb]

/-- The flattening of a uniform-width matrix. -/
theorem flatten_length_of_uniform (m : Mat) (n : ℕ) (h : ∀ v ∈ m, v.length = n) :
    m.flatten.length = m.length * n := by
  induction m with
  | nil => simp
  | cons v m ih =>
    have hv : v.length = n := h v (by simp)
    have hm := ih (fun w hw => h w (by simp [hw]))
    simp only [List.flatten_cons, List.length_append, hv, hm, List.length_cons]
    ring

/-- One transformer block preserves the `(T, C)` shape. -/
theorem block_shape (P : Prims) (cfg : GPTConfig) (bw : BlockWeights) (x : Mat)
    (hwf : BlockWF cfg bw) (hx : ∀ v ∈ x, v.length = cfg.n_embd) :
    (Block.forward P cfg.n_head cfg.n_embd bw x).length = x.length ∧
    ∀ v ∈ Block.forward P cfg.n_head cfg.n_embd bw x, v.length = cfg.n_embd := by
  obtain ⟨h1, h2, h3, h4, h5, h6, h7, h8, h9, h10, h11, h12, h13, h14, h15, h16⟩ := hwf
  have hx1len : (List.zipWith addVec x
      (csaSeq P cfg.n_head cfg.n_embd bw.attnW bw.attnB bw.projW bw.projB
        (x.map (layerNormF P bw.ln1w bw.ln1b)))).length = x.length := by
    rw [List.length_zipWith, csaSeq_length, List.length_map, min_self]
  have hx1 : ∀ v ∈ List.zipWith addVec x
      (csaSeq P cfg.n_head cfg.n_embd bw.attnW bw.attnB bw.projW bw.projB
        (x.map (layerNormF P bw.ln1w bw.ln1b))), v.length = cfg.n_embd := by
    intro v hv
    obtain ⟨va, hva, vb, hvb, rfl⟩ := mem_zipWith hv
    rw [addVec_length, hx va hva,
      csaSeq_vec_length P cfg.n_head cfg.n_embd bw.attnW bw.attnB bw.projW bw.projB _
        h6 h8 vb hvb, min_self]
  constructor
  · simp only [Block.forward]
    rw [List.length_zipWith, List.length_map, List.length_map, min_self, hx1len]
  · intro v hv
    simp only [Block.forward] at hv
    obtain ⟨va, hva, vb, hvb, rfl⟩ := mem_zipWith hv
    have hvalen : va.length = cfg.n_embd := hx1 va hva
    have hvblen : vb.length = cfg.n_embd := by
      obtain ⟨w, hw, rfl⟩ := List.mem_map.mp hvb
      obtain ⟨w0, hw0, rfl⟩ := List.mem_map.mp hw
      exact mlp_length P bw _ cfg.n_embd h14 h16
    rw [addVec_length, hvalen, hvblen, min_self]

/-- A stack of well-formed blocks preserves the `(T, C)` shape. -/
theorem blocks_shape (P : Prims) (cfg : GPTConfig) (bws : List BlockWeights) :
    ∀ (x : Mat), (∀ bw ∈ bws, BlockWF cfg bw) → (∀ v ∈ x, v.length = cfg.n_embd) →
    (bws.foldl (fun acc bw => Block.forward P cfg.n_head cfg.n_embd bw acc) x).length =
      x.length ∧
    ∀ v ∈ bws.foldl (fun acc bw => Block.forward P cfg.n_head cfg.n_embd bw acc) x,
      v.length = cfg.n_embd := by
  induction bws with
  | nil => intro x _ hx; exact ⟨rfl, hx⟩
  | cons bw bws ih =>
    intro x hwf hx
    simp only [List.foldl_cons]
    obtain ⟨hl, hv⟩ := block_shape P cfg bw x (hwf bw (by simp)) hx
    obtain ⟨hl2, hv2⟩ := ih _ (fun b hb => hwf b (by simp [hb])) hv
    exact ⟨hl2.trans hl, hv2⟩

/-- `chunkRows` produces the requested number of rows. -/
theorem chunkRows_length (rows cols : ℕ) (v : Vec) :
    (chunkRows rows cols v).length = rows := by
  simp [chunkRows]

/-- Each row of `chunkRows` has the requested width when the flat vector
has exactly `rows * cols` entries. -/
theorem chunkRows_vec_length (rows cols : ℕ) (v : Vec) (hv : v.length = rows * cols) :
    ∀ w ∈ chunkRows rows cols v, w.length = cols := by
  intro w hw
  simp only [chunkRows, List.mem_map] at hw
  obtain ⟨i, hi, rfl⟩ := hw
  have hi2 : i < rows := List.mem_range.mp hi
  rw [List.length_take, List.length_drop, hv]
  have hsub : rows * cols - i * cols = (rows - i) * cols := by rw [Nat.sub_mul]
  have hle : cols ≤ (rows - i) * cols := by
    calc cols = 1 * cols := (one_mul cols).symm
    _ ≤ (rows - i) * cols := Nat.mul_le_mul_right cols (by omega)
  rw [hsub]
  exact Nat.min_eq_left hle

/-- Shape of the encoder trunk: batch size preserved, `block_size` positions
per row, `n_embd` features per position. -/
theorem encodeZ_shape (cfg : GPTConfig) (W : GPTWeights) (P : Prims) (tokEmb : Mat3)
    (posEmb : Mat)
    (hdecWF : ∀ bw ∈ W.decBlocks, BlockWF cfg bw)
    (hlnw : W.encLnFw.length = cfg.n_embd) (hlnb : optLen cfg.n_embd W.encLnFb)
    (htlen : ∀ row ∈ tokEmb, row.length = cfg.block_size)
    (htvec : ∀ row ∈ tokEmb, ∀ v ∈ row, v.length = cfg.n_embd)
    (hplen : tokEmb ≠ [] → posEmb.length = cfg.block_size)
    (hpvec : ∀ v ∈ posEmb, v.length = cfg.n_embd) :
    (GPT.encodeZ cfg W P tokEmb posEmb).length = tokEmb.length ∧
    ∀ row ∈ GPT.encodeZ cfg W P tokEmb posEmb,
      row.length = cfg.block_size ∧ ∀ v ∈ row, v.length = cfg.n_embd := by
  constructor
  · simp [GPT.encodeZ]
  · intro row hrow
    simp only [GPT.encodeZ] at hrow
    obtain ⟨r1, hr1, rfl⟩ := List.mem_map.mp hrow
    obtain ⟨r2, hr2, rfl⟩ := List.mem_map.mp hr1
    obtain ⟨r0, hr0, rfl⟩ := List.mem_map.mp hr2
    have hz0len : (List.zipWith addVec r0 posEmb).length = cfg.block_size := by
      rw [List.length_zipWith, htlen r0 hr0, hplen (List.ne_nil_of_mem hr0), min_self]
    have hz0vec : ∀ v ∈ List.zipWith addVec r0 posEmb, v.length = cfg.n_embd := by
      intro v hv
      obtain ⟨va, hva, vb, hvb, rfl⟩ := mem_zipWith hv
      rw [addVec_length, htvec r0 hr0 va hva, hpvec vb hvb, min_self]
    obtain ⟨hblen, hbvec⟩ := blocks_shape P cfg W.decBlocks _ hdecWF hz0vec
    constructor
    · rw [List.length_map, hblen, hz0len]
    · intro v hv
      obtain ⟨w, hw, rfl⟩ := List.mem_map.mp hv
      exact layerNormF_length P _ _ w _ hlnw hlnb (hbvec w hw)

/-- Shape of the decoder trunk: batch size preserved, `block_size` positions
per row, `vocab_size` logits per position. -/
theorem decodeLogits_shape (cfg : GPTConfig) (W : GPTWeights) (P : Prims) (z3 : Mat3)
    (hencWF : ∀ bw ∈ W.encBlocks, BlockWF cfg bw)
    (hlm : W.lmHeadW.length = cfg.vocab_size)
    (hz3row : ∀ m ∈ z3, m.length = cfg.block_size)
    (hz3vec : ∀ m ∈ z3, ∀ v ∈ m, v.length = cfg.n_embd) :
    (GPT.decodeLogits cfg W P z3).length = z3.length ∧
    ∀ m ∈ GPT.decodeLogits cfg W P z3, m.length = cfg.block_size ∧
      ∀ v ∈ m, v.length = cfg.vocab_size := by
  constructor
  · simp [GPT.decodeLogits]
  · intro m hm
    simp only [GPT.decodeLogits] at hm
    obtain ⟨m1, hm1, rfl⟩ := List.mem_map.mp hm
    obtain ⟨m2, hm2, rfl⟩ := List.mem_map.mp hm1
    obtain ⟨m0, hm0, rfl⟩ := List.mem_map.mp hm2
    obtain ⟨hblen, hbvec⟩ := blocks_shape P cfg W.encBlocks m0 hencWF (hz3vec m0 hm0)
    constructor
    · rw [List.length_map, List.length_map, hblen, hz3row m0 hm0]
    · intro v hv
      obtain ⟨w, hw, rfl⟩ := List.mem_map.mp hv
      obtain ⟨w0, hw0, rfl⟩ := List.mem_map.mp hw
      rw [linear_length]
      simpa using hlm

/-- `linear` output width under well-formed weight and bias. -/
theorem linear_length_wf (Wm : Mat) (b : Option Vec) (x : Vec) (n : ℕ)
    (hW : Wm.length = n) (hb : optLen n b) : (linear Wm b x).length = n := by
  rw [linear_length]
  cases b with
  | none => simpa using hW
  | some bb =>
    simp only [optLen, Option.map_some', Option.getD_some] at hb
    simp [hW, hb]

/-- Claim C3: on any batch of rows of length `block_size` over the
vocabulary, `forward` with `embedding=True` always returns a bottleneck
matrix of shape `(batch, n_bottleneck)`, and whenever `forward` with
`embedding=False` returns a `(logits, loss)` pair, the logits have shape
`(batch, block_size, vocab_size)` — regardless of the token content and of
the random draws. -/
theorem gptForward_shapes (cfg : GPTConfig) (W : GPTWeights) (P : Prims)
    (idx : List (List ℕ)) (targets : Option (List (List ℤ))) (d : Draws)
    (hwf : GPTWF cfg W)
    (hrows : ∀ r ∈ idx, r.length = cfg.block_size)
    (hids : ∀ r ∈ idx, ∀ i ∈ r, i < cfg.vocab_size) :
    (∃ z, GPT.forward cfg W P idx targets true d = .ok (.emb z) ∧
      z.length = idx.length ∧ ∀ v ∈ z, v.length = cfg.n_bottleneck) ∧
    (∀ L ls, GPT.forward cfg W P idx targets false d = .ok (.out L ls) →
      L.length = idx.length ∧ ∀ m ∈ L, m.length = cfg.block_size ∧
        ∀ v ∈ m, v.length = cfg.vocab_size) := by
  obtain ⟨w1, w2, w3, w4, w5, w6, w7, w8, w9, w10, w11, w12, w13, w14, w15, w16,
    w17, w18, w19, w20⟩ := hwf
  have ht : seqLen idx ≤ cfg.block_size := by
    cases idx with
    | nil => simp [seqLen]
    | cons r rest =>
      have hr := hrows r (by simp)
      simp [seqLen, hr]
  have hbs : blockSizeGuard cfg (seqLen idx) = .ok () := by
    rw [blockSizeGuard, if_neg (not_lt.mpr ht)]
  obtain ⟨tokEmb, htok⟩ := mapE_ok_of_forall (fun row => mapE (lookupRow W.encWte) row) idx
    (by
      intro row hrow
      refine mapE_ok_of_forall (lookupRow W.encWte) row ?_
      intro i hi
      exact ⟨_, lookupRow_ok W.encWte i (by rw [w1]; exact hids row hrow i hi)⟩)
  have htokLen : tokEmb.length = idx.length := mapE_ok_length _ idx tokEmb htok
  have htokRows : ∀ row2 ∈ tokEmb, row2.length = cfg.block_size ∧
      ∀ v ∈ row2, v.length = cfg.n_embd := by
    intro row2 hrow2
    obtain ⟨row, hrow, hfrow⟩ := mapE_ok_forall _ idx tokEmb htok row2 hrow2
    constructor
    · rw [mapE_ok_length _ row row2 hfrow, hrows row hrow]
    · intro v hv
      obtain ⟨i, hi, hfi⟩ := mapE_ok_forall _ row row2 hfrow v hv
      have hi2 : i < W.encWte.length := by rw [w1]; exact hids row hrow i hi
      rw [lookupRow_ok W.encWte i hi2] at hfi
      cases hfi
      exact w2 _ (getD_mem _ _ _ hi2)
  obtain ⟨posEmb, hpos⟩ := mapE_ok_of_forall (lookupRow W.encWpe) (List.range (seqLen idx))
    (by
      intro i hi
      have hib : i < cfg.block_size := lt_of_lt_of_le (List.mem_range.mp hi) ht
      exact ⟨_, lookupRow_ok W.encWpe i (by rw [w3]; exact hib)⟩)
  have hposLen : posEmb.length = seqLen idx := by
    rw [mapE_ok_length _ _ _ hpos, List.length_range]
  have hposVec : ∀ v ∈ posEmb, v.length = cfg.n_embd := by
    intro v hv
    obtain ⟨i, hi, hfi⟩ := mapE_ok_forall _ _ _ hpos v hv
    have hi2 : i < W.encWpe.length := by
      rw [w3]; exact lt_of_lt_of_le (List.mem_range.mp hi) ht
    rw [lookupRow_ok W.encWpe i hi2] at hfi
    cases hfi
    exact w4 _ (getD_mem _ _ _ hi2)
  obtain ⟨insEmb, hins⟩ := mapE_ok_of_forall
    (fun i => lookupRow W.encWie (d.ins i % NUM_INTENSITIES)) (List.range (seqLen idx))
    (by
      intro i _
      refine ⟨_, lookupRow_ok W.encWie _ ?_⟩
      rw [w5]
      exact Nat.mod_lt _ (by norm_num [NUM_INTENSITIES]))
  have hplen2 : tokEmb ≠ [] → posEmb.length = cfg.block_size := by
    intro hne
    rw [hposLen]
    cases hidx : idx with
    | nil =>
      exfalso
      apply hne
      rw [hidx] at htok
      cases htok
      rfl
    | cons r rest =>
      have hr := hrows r (by rw [hidx]; simp)
      simpa [seqLen] using hr
  obtain ⟨hz2len, hz2rows⟩ := encodeZ_shape cfg W P tokEmb posEmb w8 w9 w10
    (fun row h => (htokRows row h).1) (fun row h => (htokRows row h).2) hplen2 hposVec
  obtain ⟨zb, hbtl⟩ := mapE_ok_of_forall (fun (row : Mat) =>
      if row.flatten.length = cfg.block_size * cfg.n_embd then
        Except.ok (linear W.encBottleneckW W.encBottleneckB row.flatten)
      else Except.error "RuntimeError: mat1 and mat2 shapes cannot be multiplied")
    (GPT.encodeZ cfg W P tokEmb posEmb)
    (by
      intro row hrow
      obtain ⟨hrl, hrv⟩ := hz2rows row hrow
      have hfl : row.flatten.length = cfg.block_size * cfg.n_embd := by
        rw [flatten_length_of_uniform row cfg.n_embd hrv, hrl]
      refine ⟨linear W.encBottleneckW W.encBottleneckB row.flatten, ?_⟩
      show (if row.flatten.length = cfg.block_size * cfg.n_embd then
          Except.ok (linear W.encBottleneckW W.encBottleneckB row.flatten)
        else Except.error "RuntimeError: mat1 and mat2 shapes cannot be multiplied") =
        Except.ok (linear W.encBottleneckW W.encBottleneckB row.flatten)
      rw [if_pos hfl])
  have hzbLen : zb.length = idx.length := by
    rw [mapE_ok_length _ _ _ hbtl, hz2len, htokLen]
  have hzbVec : ∀ v ∈ zb, v.length = cfg.n_bottleneck := by
    intro v hv
    obtain ⟨row, hrow, hfrow⟩ := mapE_ok_forall _ _ _ hbtl v hv
    obtain ⟨hrl, hrv⟩ := hz2rows row hrow
    have hfl : row.flatten.length = cfg.block_size * cfg.n_embd := by
      rw [flatten_length_of_uniform row cfg.n_embd hrv, hrl]
    have hfrow2 : (if row.flatten.length = cfg.block_size * cfg.n_embd then
        Except.ok (linear W.encBottleneckW W.encBottleneckB row.flatten)
      else Except.error "RuntimeError: mat1 and mat2 shapes cannot be multiplied") =
        Except.ok v := hfrow
    rw [if_pos hfl] at hfrow2
    cases hfrow2
    exact linear_length_wf _ _ _ _ w11 w13
  constructor
  · refine ⟨zb, ?_, hzbLen, hzbVec⟩
    simp only [GPT.forward, hbs, htok, hpos, hins, hbtl]
    simp
  · intro L ls h
    simp only [GPT.forward, hbs, htok, hpos, hins, hbtl] at h
    rw [if_neg (by simp)] at h
    obtain ⟨zf2, hunb⟩ := mapE_ok_of_forall (fun (v : Vec) =>
        if v.length = cfg.n_bottleneck then
          Except.ok (linear W.decUnbottleneckW W.decUnbottleneckB v)
        else Except.error "RuntimeError: mat1 and mat2 shapes cannot be multiplied") zb
      (by
        intro v hv
        refine ⟨linear W.decUnbottleneckW W.decUnbottleneckB v, ?_⟩
        show (if v.length = cfg.n_bottleneck then
            Except.ok (linear W.decUnbottleneckW W.decUnbottleneckB v)
          else Except.error "RuntimeError: mat1 and mat2 shapes cannot be multiplied") =
          Except.ok (linear W.decUnbottleneckW W.decUnbottleneckB v)
        rw [if_pos (hzbVec v hv)])
    have hzf2Len : zf2.length = idx.length := by
      rw [mapE_ok_length _ _ _ hunb, hzbLen]
    have hzf2Vec : ∀ v ∈ zf2, v.length = cfg.block_size * cfg.n_embd := by
      intro v hv
      obtain ⟨v0, hv0, hfv0⟩ := mapE_ok_forall _ _ _ hunb v hv
      have hfv2 : (if v0.length = cfg.n_bottleneck then
          Except.ok (linear W.decUnbottleneckW W.decUnbottleneckB v0)
        else Except.error "RuntimeError: mat1 and mat2 shapes cannot be multiplied") =
          Except.ok v := hfv0
      rw [if_pos (hzbVec v0 hv0)] at hfv2
      cases hfv2
      exact linear_length_wf _ _ _ _ w14 w16
    simp only [hunb] at h
    obtain ⟨z3, hchunk⟩ := mapE_ok_of_forall (fun (v : Vec) =>
        if v.length = cfg.block_size * cfg.n_embd then
          Except.ok (chunkRows cfg.block_size cfg.n_embd v)
        else Except.error "RuntimeError: shape invalid for input of size") zf2
      (by
        intro v hv
        refine ⟨chunkRows cfg.block_size cfg.n_embd v, ?_⟩
        show (if v.length = cfg.block_size * cfg.n_embd then
            Except.ok (chunkRows cfg.block_size cfg.n_embd v)
          else Except.error "RuntimeError: shape invalid for input of size") =
          Except.ok (chunkRows cfg.block_size cfg.n_embd v)
        rw [if_pos (hzf2Vec v hv)])
    have hz3Len : z3.length = idx.length := by
      rw [mapE_ok_length _ _ _ hchunk, hzf2Len]
    have hz3Facts : ∀ m ∈ z3, m.length = cfg.block_size ∧
        ∀ v ∈ m, v.length = cfg.n_embd := by
      intro m hm
      obtain ⟨v0, hv0, hfv0⟩ := mapE_ok_forall _ _ _ hchunk m hm
      have hfv2 : (if v0.length = cfg.block_size * cfg.n_embd then
          Except.ok (chunkRows cfg.block_size cfg.n_embd v0)
        else Except.error "RuntimeError: shape invalid for input of size") =
          Except.ok m := hfv0
      rw [if_pos (hzf2Vec v0 hv0)] at hfv2
      cases hfv2
      exact ⟨chunkRows_length _ _ _, chunkRows_vec_length _ _ _ (hzf2Vec v0 hv0)⟩
    simp only [hchunk] at h
    obtain ⟨hLlen, hLrows⟩ := decodeLogits_shape cfg W P z3 w7 w19
      (fun m hm => (hz3Facts m hm).1) (fun m hm => (hz3Facts m hm).2)
    cases targets with
    | some tg =>
      cases hce : crossEntropyMean P cfg.vocab_size (GPT.decodeLogits cfg W P z3).flatten
          tg.flatten with
      | error e => simp only [hce] at h; cases h
      | ok loss2 =>
      simp only [hce] at h
      cases hcl : customLoss P cfg.vocab_size (GPT.decodeLogits cfg W P z3) tg with
      | error e => simp only [hcl] at h; cases h
      | ok alt =>
      simp only [hcl] at h
      cases h
      exact ⟨hLlen.trans hz3Len, hLrows⟩
    | none =>
      cases hg : loggingGuards false d with
      | error e => simp only [hg] at h; cases h
      | ok u2 =>
      simp only [hg] at h
      cases h
      exact ⟨hLlen.trans hz3Len, hLrows⟩

/-- Concrete instance of `gptForward_shapes` on the tiny model: the
bottleneck output has shape `(1, n_bottleneck)` and any returned logits
have shape `(1, block_size, vocab_size)`. -/
theorem gptForward_shapes_witness :
    (∃ z, GPT.forward cfgG WG PG [[1]] none true dG = .ok (.emb z) ∧
      z.length = ([[1]] : List (List ℕ)).length ∧ ∀ v ∈ z, v.length = cfgG.n_bottleneck) ∧
    (∀ L ls, GPT.forward cfgG WG PG [[1]] none false dG = .ok (.out L ls) →
      L.length = ([[1]] : List (List ℕ)).length ∧ ∀ m ∈ L, m.length = cfgG.block_size ∧
        ∀ v ∈ m, v.length = cfgG.vocab_size) :=
  gptForward_shapes cfgG WG PG [[1]] none dG (by decide) (by decide) (by decide)
